import Mathlib

/-!
Shallow embedding of the `pluto` key-value storage engine (Go package `db`).

Modelling conventions:
* Go byte slices and strings are modelled as `List Nat` (each element an octet value);
  Go `map[string][]byte` is modelled as an association list with unique keys
  (`KVMap`), looked up by first match — a faithful rendering since Go map keys
  are unique.
* Go `int` fields are modelled as `Int` (`Record.Len`, the table `level`);
  loop counters and lengths that are provably non-negative use `Nat`.
* File-system effects are made explicit pieces of state: the WAL file's byte
  content (`WAL.fileContent`) and the set of written SSTable files
  (`Table.sstFiles`, one entry `(level, sortedEntries)` per successful
  `writeSSTable`; the JSON serialization itself is abstracted to the sorted
  entry sequence).
* Fallible I/O (file write, truncate, SSTable create/write) is driven by an
  explicit `Oracle` of error outcomes passed to each engine call.
* `log.Fatal` (process termination) is the `StepResult.fatal` outcome, carrying
  the state at the moment of termination for specification purposes; a Go
  runtime panic (out-of-range slice index) is `StepResult.panicked`, and in the
  parser an out-of-range index is `Option.none`.
* Mutexes are omitted: every modelled operation is the body of one critical
  section and the claims are about sequential behaviour.
-/

/-- Byte sequences: Go `[]byte` / `string` values, one `Nat` per octet. -/
abbrev ByteSeq := List Nat

/-- Go `map[string][]byte`, as an association list from key bytes to value bytes. -/
abbrev KVMap := List (ByteSeq × ByteSeq)

/-- Go `error` values that occur in the engine: `ErrorKeyNotFound` and opaque
I/O errors (distinguished by a numeric code, since the model never inspects them). -/
inductive Err where
  | keyNotFound : Err
  | ioErr : Nat → Err
deriving DecidableEq

/-- `ActionPut Action = iota` (Go `Action` is `int`). -/
def ActionPut : Int := 0

/-- `ActionGet`, the second enumeration value. -/
def ActionGet : Int := 1

/-- `ActionDelete`, the third enumeration value. -/
def ActionDelete : Int := 2

/-- `LogLimit = 4 * 1024`: the WAL record-count threshold for compaction. -/
def LogLimit : Nat := 4 * 1024

/-- One logged mutation: Go `type Record struct { Len int; Key, Val []byte; Action Action }`. -/
structure Record where
  Len : Int
  Key : ByteSeq
  Val : ByteSeq
  Action : Int
deriving DecidableEq

/-- `Action.String()`: `p` (112) for Put, `g` (103) for Get, `d` (100) for Delete,
`u` (117) otherwise; as the single byte of the returned one-character string. -/
def actionByte (a : Int) : Nat :=
  if a = ActionPut then 112
  else if a = ActionGet then 103
  else if a = ActionDelete then 100
  else 117

/-- `transAction`: byte `p` (112) to `ActionPut`, `g` (103) to `ActionGet`,
`d` (100) to `ActionDelete`, anything else to `-1`. -/
def transAction (b : Nat) : Int :=
  if b = 112 then ActionPut
  else if b = 103 then ActionGet
  else if b = 100 then ActionDelete
  else -1

/-- ASCII decimal digits of `n`, most significant first (fuelled helper; the
fuel strictly exceeds the recursion depth whenever `n < fuel`). -/
def natDigitsF : Nat → Nat → List Nat
  | 0, _ => []
  | fuel + 1, n => if n < 10 then [48 + n] else natDigitsF fuel (n / 10) ++ [48 + n % 10]

/-- ASCII decimal digits of `n`, most significant first: the `%d` rendering of a
non-negative integer. -/
def natDigits (n : Nat) : List Nat := natDigitsF (n + 1) n

/-- The `%d` rendering of a Go `int`: a minus sign (45) before the digits when negative. -/
def intDecimal (i : Int) : List Nat :=
  if i < 0 then 45 :: natDigits (-i).toNat else natDigits i.toNat

/-- `Record.String()` / `Record.Bytes()`: `fmt.Sprintf("%d%s%s|%s", r.Len,
r.Action, r.Key, r.Val)` as its byte sequence — decimal `Len`, the one-byte
action tag, the raw key, the separator byte `|` (124), the raw value. -/
def Record.Bytes (r : Record) : List Nat :=
  intDecimal r.Len ++ [actionByte r.Action] ++ r.Key ++ [124] ++ r.Val

/-- The digit-scanning loop of `parseRecord`: `for ; data[i] >= '0' && data[i] <= '9'; i++`
accumulating `dataLen = dataLen*10 + int(data[i]-'0')`. Returns the accumulated
value and the rest of the buffer starting at the first non-digit; `none` models
the index-out-of-range panic when the buffer is exhausted mid-scan. -/
def parseDigits : List Nat → Nat → Option (Nat × List Nat)
  | [], _ => none
  | b :: bs, acc =>
    if 48 ≤ b ∧ b ≤ 57 then parseDigits bs (acc * 10 + (b - 48))
    else some (acc, b :: bs)

/-- The key-scanning loop of `parseRecord`: `for data[i] != '|' { key = append(key, data[i]); i++ }`
followed by `i++` past the separator. `none` models the panic when the buffer
ends before a separator byte is found. -/
def parseKey : List Nat → Option (ByteSeq × List Nat)
  | [] => none
  | b :: bs =>
    if b = 124 then some ([], bs)
    else match parseKey bs with
      | none => none
      | some (k, rest) => some (b :: k, rest)

/-- The value-scanning loop of `parseRecord`: read exactly `n` bytes
(`for j := 0; j < dataLen-len(key)-2; j++`); `none` models the panic when fewer
than `n` bytes remain. -/
def takeN : Nat → List Nat → Option (ByteSeq × List Nat)
  | 0, rest => some ([], rest)
  | _ + 1, [] => none
  | n + 1, b :: bs =>
    match takeN n bs with
    | none => none
    | some (v, rest) => some (b :: v, rest)

/-- One iteration of `parseRecord`'s outer loop: scan the decimal length, take
one byte as the action tag (through `transAction`), scan the key up to the
separator, then read `dataLen - len(key) - 2` value bytes (Go `int` arithmetic:
a negative count reads nothing). -/
def parseOne (data : List Nat) : Option (Record × List Nat) :=
  match parseDigits data 0 with
  | none => none
  | some (dataLen, rest) =>
    match rest with
    | [] => none
    | b :: rest2 =>
      let action := transAction b
      match parseKey rest2 with
      | none => none
      | some (key, rest3) =>
        match takeN ((dataLen : Int) - (key.length : Int) - 2).toNat rest3 with
        | none => none
        | some (val, rest4) =>
          some ({ Len := (dataLen : Int), Key := key, Val := val, Action := action }, rest4)

/-- The outer loop of `parseRecord` (`for i := 0; i < len(data);`), fuelled for
structural recursion: each iteration consumes at least the action-tag byte, so
`fuel = data.length` always suffices. -/
def parseRecordGo (fuel : Nat) (data : List Nat) : Option (List Record) :=
  match data, fuel with
  | [], _ => some []
  | _ :: _, 0 => none
  | d, fuel + 1 =>
    match parseOne d with
    | none => none
    | some (r, rest) =>
      match parseRecordGo fuel rest with
      | none => none
      | some rs => some (r :: rs)

/-- `parseRecord(data) ([]Record, error)`: `some records` models the normal
return `(records, nil)` — the Go function returns a `nil` error on every path —
and `none` models a runtime index-out-of-range panic. -/
def parseRecord (data : List Nat) : Option (List Record) :=
  parseRecordGo data.length data

/-- First-match lookup in an association list: Go `val, ok := m[string(key)]`
(`some` is `ok = true`). Go map keys are unique, so first match is the match. -/
def lookupKV : KVMap → ByteSeq → Option ByteSeq
  | [], _ => none
  | (k, v) :: rest, key => if k = key then some v else lookupKV rest key

/-- Go `m[string(key)] = val`: replace the existing entry for the key, or add one. -/
def upsert : KVMap → ByteSeq → ByteSeq → KVMap
  | [], key, val => [(key, val)]
  | (k, v) :: rest, key, val =>
    if k = key then (key, val) :: rest else (k, v) :: upsert rest key val

/-- Go `delete(m, string(key))`: drop the entry for the key if present. -/
def eraseKey : KVMap → ByteSeq → KVMap
  | [], _ => []
  | (k, v) :: rest, key => if k = key then rest else (k, v) :: eraseKey rest key

/-- Well-formedness of the association-list rendering of a Go map: no key occurs twice. -/
def NodupKeys (m : KVMap) : Prop := (m.map Prod.fst).Nodup

instance (m : KVMap) : Decidable (NodupKeys m) := by
  unfold NodupKeys; infer_instance

/-- Go `string(kv.Key) < string(other.Key)`: lexicographic byte-string order. -/
def ltBytes : ByteSeq → ByteSeq → Bool
  | [], [] => false
  | [], _ :: _ => true
  | _ :: _, [] => false
  | a :: as, b :: bs => if a < b then true else if b < a then false else ltBytes as bs

/-- Ordered insertion used to model `sort.Sort(KVs(data))`. -/
def insertKV (p : ByteSeq × ByteSeq) : KVMap → KVMap
  | [] => [p]
  | q :: rest => if ltBytes p.1 q.1 then p :: q :: rest else q :: insertKV p rest

/-- The sorted-by-key entry sequence `writeSSTable` serializes. -/
def sortKVs (m : KVMap) : KVMap := m.foldr insertKV []

/-- The WAL: its in-memory record list and the byte content of `wal.txt`
(the open file handle's state). The `Dir` field and the mutex are omitted. -/
structure WAL where
  Records : List Record
  fileContent : List Nat
deriving DecidableEq

/-- `WAL.Append`: push the record onto the in-memory list, then `flush` writes
its encoded bytes to the file; a write error (`flushErr`) is returned, and the
record stays in the list either way. -/
def WAL.Append (w : WAL) (r : Record) (flushErr : Option Err) : WAL × Option Err :=
  let w1 : WAL := { w with Records := w.Records ++ [r] }
  match flushErr with
  | some e => (w1, some e)
  | none => ({ w1 with fileContent := w1.fileContent ++ r.Bytes }, none)

/-- `WAL.compact`: clear the in-memory list, seek to the start and truncate the
file. The `Seek`/`Truncate` return values are discarded by the source, so a
truncation failure (`truncErr`) leaves the file bytes in place but is not
reported: the function returns `nil` unconditionally. -/
def WAL.compact (w : WAL) (truncErr : Option Err) : WAL × Option Err :=
  ({ Records := [], fileContent := if truncErr.isNone then [] else w.fileContent }, none)

/-- The table pair: `MemTable` (active) and `Immutable`, the SSTable `level`
counter, and the `.sst` files written so far into the table's directory
(each one `(level, sorted entries)`). `Dir` and the mutex are omitted. -/
structure Table where
  MemTable : KVMap
  Immutable : KVMap
  level : Int
  sstFiles : List (Int × KVMap)
deriving DecidableEq

/-- `Table.Put`: insert or overwrite in the active mapping. -/
def Table.Put (t : Table) (key val : ByteSeq) : Table :=
  { t with MemTable := upsert t.MemTable key val }

/-- `Table.Get`: the active mapping first; on miss the immutable mapping; on
miss in both, `ErrorKeyNotFound`. -/
def Table.Get (t : Table) (key : ByteSeq) : Except Err ByteSeq :=
  match lookupKV t.MemTable key with
  | some v => .ok v
  | none =>
    match lookupKV t.Immutable key with
    | some v => .ok v
    | none => .error .keyNotFound

/-- `Table.Delete`: remove the key from the active mapping only. -/
def Table.Delete (t : Table) (key : ByteSeq) : Table :=
  { t with MemTable := eraseKey t.MemTable key }

/-- `Table.writeSSTable`: serialize the immutable mapping sorted by key into
`{dir}/{level}.sst` and advance the level counter; `sstErr` models an
`os.Create` or `f.Write` failure, on which the error is returned and the level
counter is not advanced. -/
def Table.writeSSTable (t : Table) (sstErr : Option Err) : Table × Option Err :=
  match sstErr with
  | some e => (t, some e)
  | none =>
    ({ t with level := t.level + 1,
              sstFiles := t.sstFiles ++ [(t.level, sortKVs t.Immutable)] }, none)

/-- The fallible-I/O outcomes of one engine call: the WAL flush, the WAL
truncation, and the SSTable write. -/
structure Oracle where
  flushErr : Option Err
  truncErr : Option Err
  sstErr : Option Err
deriving DecidableEq

/-- The all-success oracle. -/
def okO : Oracle := { flushErr := none, truncErr := none, sstErr := none }

/-- The engine: the WAL and the table pair it owns. -/
structure DB where
  wal : WAL
  table : Table
deriving DecidableEq

/-- Outcome of an engine write call: a normal return with an optional error,
process termination by `log.Fatal` (carrying the state at termination), or a
runtime panic. -/
inductive StepResult where
  | ret : DB → Option Err → StepResult
  | fatal : DB → StepResult
  | panicked : StepResult
deriving DecidableEq

/-- `DB.compact`: (1) `WAL.compact`; (2) if the immutable mapping is non-empty,
`writeSSTable` (returning its error on failure); (3) the active mapping becomes
the immutable mapping; (4) a fresh empty active mapping. -/
def DB.compact (db : DB) (o : Oracle) : DB × Option Err :=
  match WAL.compact db.wal o.truncErr with
  | (w1, some e) => ({ db with wal := w1 }, some e)
  | (w1, none) =>
    let db1 : DB := { db with wal := w1 }
    match (if db1.table.Immutable.length > 0
           then Table.writeSSTable db1.table o.sstErr
           else (db1.table, none)) with
    | (t2, some e) => ({ db1 with table := t2 }, some e)
    | (t2, none) =>
      ({ db1 with table := { t2 with Immutable := t2.MemTable, MemTable := [] } }, none)

/-- `DB.sync`: apply the action of `WAL.last()` to the table pair (`ActionPut`
inserts, `ActionDelete` removes, any other action does nothing); `none` is the
index-out-of-range panic of `last()` on an empty record list. -/
def DB.sync (db : DB) : Option DB :=
  match db.wal.Records.getLast? with
  | none => none
  | some r =>
    if r.Action = ActionPut then some { db with table := db.table.Put r.Key r.Val }
    else if r.Action = ActionDelete then some { db with table := db.table.Delete r.Key }
    else some db

/-- The record `DB.append` builds: `Len = len(key) + len(val) + 1 + 1`. -/
def mkRec (key val : ByteSeq) (action : Int) : Record :=
  { Len := (key.length : Int) + (val.length : Int) + 1 + 1,
    Key := key, Val := val, Action := action }

/-- `DB.append`: if `WAL.len() > LogLimit`, compact first — a compaction error
is `log.Fatal`; then `WAL.Append` the new record, returning its error on
failure; then `sync` the record into the table pair. -/
def DB.append (db : DB) (o : Oracle) (key val : ByteSeq) (action : Int) : StepResult :=
  match (if db.wal.Records.length > LogLimit then DB.compact db o else (db, none)) with
  | (db1, some _) => .fatal db1
  | (db1, none) =>
    match WAL.Append db1.wal (mkRec key val action) o.flushErr with
    | (w2, some e) => .ret { db1 with wal := w2 } (some e)
    | (w2, none) =>
      match DB.sync { db1 with wal := w2 } with
      | none => .panicked
      | some db3 => .ret db3 none

/-- `DB.Put`: append a Put record. -/
def DB.Put (db : DB) (o : Oracle) (key val : ByteSeq) : StepResult :=
  DB.append db o key val ActionPut

/-- `DB.Delete`: append a Delete record with a `nil` value. -/
def DB.Delete (db : DB) (o : Oracle) (key : ByteSeq) : StepResult :=
  DB.append db o key [] ActionDelete

/-- `DB.Get` = `db.search`: delegate to `Table.Get`, passing value and error through. -/
def DB.Get (db : DB) (key : ByteSeq) : Except Err ByteSeq :=
  match Table.Get db.table key with
  | .error e => .error e
  | .ok v => .ok v

/-- The engine produced by `Open` on a directory whose log file is empty:
`parseRecord` of the empty file yields no records, both mappings are empty
(Go leaves `Immutable` as the nil map), the level counter is `0`, and no
SSTable files exist. -/
def freshDB : DB :=
  { wal := { Records := [], fileContent := [] },
    table := { MemTable := [], Immutable := [], level := 0, sstFiles := [] } }

/-- Engine states reachable from a fresh engine by completed (returning)
`Put`/`Delete` calls, under arbitrary I/O outcomes. -/
inductive Reached : DB → Prop where
  | base : Reached freshDB
  | step {db db' : DB} {o : Oracle} {k v : ByteSeq} {a : Int} {e : Option Err} :
      Reached db → (a = ActionPut ∨ a = ActionDelete) →
      DB.append db o k v a = .ret db' e → Reached db'

/-- Fixed key and value used by the threshold-crossing scenario runs. -/
def kC5 : ByteSeq := [107]

/-- Fixed value for the scenario runs. -/
def vC5 : ByteSeq := [118]

/-- One successful `Put` of the scenario key/value, projecting the resulting
state out of the step outcome (total for convenience; every use is backed by a
lemma showing the call returns normally). -/
def stepPut (db : DB) : DB :=
  match DB.append db okO kC5 vC5 ActionPut with
  | .ret d _ => d
  | .fatal d => d
  | .panicked => db

/-- `n` successive `stepPut` calls. -/
def iterPut : Nat → DB → DB
  | 0, db => db
  | n + 1, db => iterPut n (stepPut db)

/-- Equality of Go `(value, error)` return pairs, rendered as `Except`, is decidable. -/
instance {e a : Type} [DecidableEq e] [DecidableEq a] : DecidableEq (Except e a) := fun
  | .ok x, .ok y => decidable_of_iff (x = y) (by simp)
  | .ok _, .error _ => .isFalse (by simp)
  | .error _, .ok _ => .isFalse (by simp)
  | .error x, .error y => decidable_of_iff (x = y) (by simp)

/-- One step of the decimal accumulator in `parseRecord`'s digit loop. -/
def digitStep (a d : Nat) : Nat := a * 10 + (d - 48)

theorem natDigitsF_stable (f1 : Nat) : ∀ (f2 n : Nat), n < f1 → n < f2 →
    natDigitsF f1 n = natDigitsF f2 n := by
  induction f1 with
  | zero => intro f2 n h1 _; omega
  | succ g ih =>
    intro f2 n h1 h2
    match f2, h2 with
    | h + 1, _ =>
      simp only [natDigitsF]
      by_cases hn : n < 10
      · simp [hn]
      · have hpos : 0 < n := by omega
        have hdiv : n / 10 < n := Nat.div_lt_self hpos (by omega)
        simp only [hn, if_false]
        rw [ih h (n / 10) (by omega) (by omega)]

theorem natDigits_eq (n : Nat) :
    natDigits n = if n < 10 then [48 + n] else natDigits (n / 10) ++ [48 + n % 10] := by
  have h0 : natDigits n = if n < 10 then [48 + n] else natDigitsF n (n / 10) ++ [48 + n % 10] :=
    rfl
  rw [h0]
  by_cases hn : n < 10
  · simp [hn]
  · have hpos : 0 < n := by omega
    have hdiv : n / 10 < n := Nat.div_lt_self hpos (by omega)
    rw [if_neg hn, if_neg hn]
    congr 1
    exact natDigitsF_stable n (n / 10 + 1) (n / 10) (by omega) (by omega)

theorem natDigits_ne_nil (n : Nat) : natDigits n ≠ [] := by
  rw [natDigits_eq]
  by_cases hn : n < 10 <;> simp [hn]

theorem natDigits_digit (n : Nat) : ∀ d ∈ natDigits n, 48 ≤ d ∧ d ≤ 57 := by
  induction n using Nat.strong_induction_on with
  | _ n ih =>
    rw [natDigits_eq]
    by_cases hn : n < 10
    · simp only [hn, if_true]
      intro d hd
      simp at hd
      omega
    · have hpos : 0 < n := by omega
      have hdiv : n / 10 < n := Nat.div_lt_self hpos (by omega)
      simp only [hn, if_false]
      intro d hd
      rcases List.mem_append.mp hd with h | h
      · exact ih (n / 10) hdiv d h
      · have : d = 48 + n % 10 := by simpa using h
        have : n % 10 < 10 := Nat.mod_lt n (by omega)
        omega

theorem natDigits_foldl (n : Nat) : ∀ acc : Nat,
    List.foldl digitStep acc (natDigits n) = acc * 10 ^ (natDigits n).length + n := by
  induction n using Nat.strong_induction_on with
  | _ n ih =>
    intro acc
    rw [natDigits_eq]
    by_cases hn : n < 10
    · simp [hn, digitStep]
    · have hpos : 0 < n := by omega
      have hdiv : n / 10 < n := Nat.div_lt_self hpos (by omega)
      simp only [hn, if_false, List.foldl_append, List.length_append, List.length_cons,
        List.length_nil, List.foldl_cons, List.foldl_nil]
      rw [ih (n / 10) hdiv acc]
      have hmod : 48 + n % 10 - 48 = n % 10 := by omega
      simp only [digitStep, hmod, pow_succ]
      generalize (10 : Nat) ^ (natDigits (n / 10)).length = P
      have key : (acc * P + n / 10) * 10 + n % 10 = acc * (P * 10) + (n / 10 * 10 + n % 10) := by
        ring
      rw [key]
      congr 1
      omega

theorem parseDigits_spec (ds : List Nat) : ∀ (rest : List Nat) (acc : Nat),
    (∀ d ∈ ds, 48 ≤ d ∧ d ≤ 57) →
    (∀ b bs, rest = b :: bs → ¬(48 ≤ b ∧ b ≤ 57)) → rest ≠ [] →
    parseDigits (ds ++ rest) acc = some (List.foldl digitStep acc ds, rest) := by
  induction ds with
  | nil =>
    intro rest acc _ hnd hne
    match rest, hne with
    | b :: bs, _ =>
      simp only [List.nil_append, parseDigits, List.foldl_nil]
      rw [if_neg (hnd b bs rfl)]
  | cons d ds ih =>
    intro rest acc hds hnd hne
    have hd : 48 ≤ d ∧ d ≤ 57 := hds d (by simp)
    simp only [List.cons_append, parseDigits]
    rw [if_pos hd]
    show parseDigits (ds ++ rest) (acc * 10 + (d - 48)) = _
    rw [ih rest (acc * 10 + (d - 48)) (fun x hx => hds x (by simp [hx])) hnd hne]
    rfl

theorem parseKey_spec (key : ByteSeq) : ∀ rest : List Nat, 124 ∉ key →
    parseKey (key ++ 124 :: rest) = some (key, rest) := by
  induction key with
  | nil => intro rest _; simp [parseKey]
  | cons b bs ih =>
    intro rest hk
    have hb : b ≠ 124 := by intro h; exact hk (by simp [h])
    simp only [List.cons_append, parseKey]
    rw [if_neg hb]
    have hrec : parseKey (bs ++ 124 :: rest) = some (bs, rest) :=
      ih rest (fun h => hk (by simp [h]))
    show (match parseKey (bs ++ 124 :: rest) with
      | none => none
      | some (k, r) => some (b :: k, r)) = _
    rw [hrec]

theorem takeN_exact (l : ByteSeq) : ∀ rest : List Nat,
    takeN l.length (l ++ rest) = some (l, rest) := by
  induction l with
  | nil => intro rest; simp [takeN]
  | cons b bs ih => intro rest; simp [takeN, ih rest]

theorem takeN_all (l : ByteSeq) : takeN l.length l = some (l, []) := by
  have h := takeN_exact l []
  rwa [List.append_nil] at h

theorem parseRecordGo_single (fuel : Nat) (data : List Nat) (r : Record)
    (h : parseOne data = some (r, [])) (hne : data ≠ []) (hf : 1 ≤ fuel) :
    parseRecordGo fuel data = some [r] := by
  match data, fuel, hne, hf with
  | d :: ds, f + 1, _, _ => simp [parseRecordGo, h]

theorem parseOne_roundtrip (r : Record) (hk : 124 ∉ r.Key)
    (hlen : r.Len = (r.Key.length : Int) + (r.Val.length : Int) + 2)
    (ha : r.Action = ActionPut ∨ r.Action = ActionGet ∨ r.Action = ActionDelete) :
    parseOne r.Bytes = some (r, []) := by
  obtain ⟨L, key, val, a⟩ := r
  simp only at hk hlen ha
  have hN : L.toNat = key.length + val.length + 2 := by omega
  have hdec : intDecimal L = natDigits (key.length + val.length + 2) := by
    rw [intDecimal, if_neg (by omega), hN]
  have hnd : ¬(48 ≤ actionByte a ∧ actionByte a ≤ 57) := by
    rcases ha with h | h | h <;> subst h <;> simp [actionByte, ActionPut, ActionGet, ActionDelete]
  have htr : transAction (actionByte a) = a := by
    rcases ha with h | h | h <;> subst h <;> rfl
  have hbytes : Record.Bytes ⟨L, key, val, a⟩ =
      natDigits (key.length + val.length + 2) ++ (actionByte a :: (key ++ 124 :: val)) := by
    simp [Record.Bytes, hdec]
  have hcount : (((key.length + val.length + 2 : Nat) : Int) - (key.length : Int) - 2).toNat
      = val.length := by omega
  rw [parseOne, hbytes,
    parseDigits_spec _ _ 0 (natDigits_digit _) (by intro b bs hb hdig; cases hb; exact hnd hdig)
      (by simp),
    natDigits_foldl]
  simp only [zero_mul, zero_add, parseKey_spec key val hk, htr, hcount, takeN_all,
    Option.some.injEq, Prod.mk.injEq, Record.mk.injEq, and_true, true_and]
  omega

theorem lookupKV_eq_none_of_not_mem (m : KVMap) (k : ByteSeq)
    (h : k ∉ m.map Prod.fst) : lookupKV m k = none := by
  induction m with
  | nil => rfl
  | cons p rest ih =>
    obtain ⟨k', v'⟩ := p
    simp only [List.map_cons, List.mem_cons] at h
    push_neg at h
    simp only [lookupKV]
    rw [if_neg (fun hk => h.1 hk.symm)]
    exact ih h.2

theorem lookupKV_erase_self (m : KVMap) (k : ByteSeq) (h : NodupKeys m) :
    lookupKV (eraseKey m k) k = none := by
  induction m with
  | nil => rfl
  | cons p rest ih =>
    obtain ⟨k', v'⟩ := p
    unfold NodupKeys at h
    simp only [List.map_cons, List.nodup_cons] at h
    by_cases hk : k' = k
    · simp only [eraseKey, if_pos hk]
      exact lookupKV_eq_none_of_not_mem rest k (hk ▸ h.1)
    · simp only [eraseKey, if_neg hk, lookupKV, if_neg hk]
      exact ih h.2

theorem eraseKey_absent (m : KVMap) (k : ByteSeq) (h : lookupKV m k = none) :
    eraseKey m k = m := by
  induction m with
  | nil => rfl
  | cons p rest ih =>
    obtain ⟨k', v'⟩ := p
    simp only [lookupKV] at h
    by_cases hk : k' = k
    · rw [if_pos hk] at h; cases h
    · rw [if_neg hk] at h
      simp only [eraseKey, if_neg hk, ih h]

theorem upsert_idem (m : KVMap) (k v : ByteSeq) :
    upsert (upsert m k v) k v = upsert m k v := by
  induction m with
  | nil => simp [upsert]
  | cons p rest ih =>
    obtain ⟨k', v'⟩ := p
    by_cases hk : k' = k
    · simp [upsert, hk]
    · simp only [upsert, if_neg hk, ih]

/-- C1: a `Record` of the data model — its key free of the separator byte `|`,
its `Len` equal to `len(key) + len(value) + 2`, and its action one of the three
enumeration values — is reproduced exactly, as the single decoded record, by
`parseRecord` applied to the output of `Record.String`, even when the value
contains the separator byte. -/
theorem c1_record_roundtrip (r : Record) (hk : 124 ∉ r.Key)
    (hlen : r.Len = (r.Key.length : Int) + (r.Val.length : Int) + 2)
    (ha : r.Action = ActionPut ∨ r.Action = ActionGet ∨ r.Action = ActionDelete) :
    parseRecord r.Bytes = some [r] := by
  have h1 : parseOne r.Bytes = some (r, []) := parseOne_roundtrip r hk hlen ha
  have hne : r.Bytes ≠ [] := by
    obtain ⟨L, key, val, a⟩ := r
    simp [Record.Bytes]
  rw [parseRecord]
  exact parseRecordGo_single _ _ _ h1 hne (by
    have := List.length_pos.mpr hne
    omega)

/-- C1 witness: a concrete record whose value contains the separator byte
round-trips through encode and decode. -/
theorem c1_record_roundtrip_witness :
    (124 ∉ ([107] : ByteSeq)) ∧
    ((6 : Int) = (([107] : ByteSeq).length : Int) + (([97, 124, 98] : ByteSeq).length : Int) + 2) ∧
    parseRecord (Record.Bytes { Len := 6, Key := [107], Val := [97, 124, 98], Action := ActionPut })
      = some [{ Len := 6, Key := [107], Val := [97, 124, 98], Action := ActionPut }] :=
  ⟨by decide, by decide,
    c1_record_roundtrip { Len := 6, Key := [107], Val := [97, 124, 98], Action := ActionPut }
      (by decide) (by decide) (Or.inl rfl)⟩

/-- C2 counterexample: the buffer `2u|` carries the out-of-range action tag `u`,
yet `parseRecord` returns it as a valid record (action `-1`) with a `nil`
error, contradicting the claim that an out-of-range action tag is a decode
error and that no such record is returned. -/
theorem c2_counterexample :
    parseRecord [50, 117, 124] = some [{ Len := 2, Key := [], Val := [], Action := -1 }] := by
  decide

/-- C2 amended: `parseRecord` never returns a decode error. An out-of-range
action tag (`2u|`) and a non-digit where a digit is expected (`p|`, parsed with
length `0`) are silently consumed into records returned with a `nil` error,
while a buffer truncated mid-record (`3`) or missing its separator (`5p`)
causes an index-out-of-range panic rather than an error return. -/
theorem c2_no_decode_error :
    parseRecord [50, 117, 124] = some [{ Len := 2, Key := [], Val := [], Action := -1 }] ∧
    parseRecord [112, 124] = some [{ Len := 0, Key := [], Val := [], Action := ActionPut }] ∧
    parseRecord [51] = none ∧
    parseRecord [53, 112] = none := by
  decide

/-- The table used to witness C6. -/
def c6t : Table :=
  { MemTable := [([97], [49])], Immutable := [([98], [50])], level := 0, sstFiles := [] }

/-- C6: `Get` returns the active mapping's value when the key is present there;
otherwise the immutable mapping's value when present there; otherwise the
`KeyNotFound` error — and the engine's `Get` passes `Table.Get` straight through. -/
theorem c6_get_two_tier (t : Table) (key : ByteSeq) :
    (∀ v, lookupKV t.MemTable key = some v → Table.Get t key = .ok v) ∧
    (lookupKV t.MemTable key = none →
      ∀ v, lookupKV t.Immutable key = some v → Table.Get t key = .ok v) ∧
    (lookupKV t.MemTable key = none → lookupKV t.Immutable key = none →
      Table.Get t key = .error .keyNotFound) ∧
    (∀ w : WAL, DB.Get { wal := w, table := t } key = Table.Get t key) := by
  refine ⟨?_, ?_, ?_, ?_⟩
  · intro v hv; unfold Table.Get; rw [hv]
  · intro hm v hv; unfold Table.Get; rw [hm, hv]
  · intro hm hi; unfold Table.Get; rw [hm, hi]
  · intro w
    unfold DB.Get
    cases h : Table.Get t key <;> rfl

/-- C6 witness: a concrete table pair exercising all three lookup outcomes. -/
theorem c6_get_two_tier_witness :
    Table.Get c6t [97] = .ok [49] ∧
    Table.Get c6t [98] = .ok [50] ∧
    Table.Get c6t [99] = .error .keyNotFound :=
  ⟨(c6_get_two_tier c6t [97]).1 [49] (by decide),
   (c6_get_two_tier c6t [98]).2.1 (by decide) [50] (by decide),
   (c6_get_two_tier c6t [99]).2.2.1 (by decide) (by decide)⟩

/-- The table used to witness C7: the key is present in both tiers. -/
def c7t : Table :=
  { MemTable := [([97], [49])], Immutable := [([97], [50])], level := 0, sstFiles := [] }

/-- C7: `Delete` removes the key from the active mapping only, never from the
immutable mapping; consequently, for a key whose value sits in the immutable
mapping, a delete of that key followed by a get still returns that value. -/
theorem c7_delete_active_only (t : Table) (key : ByteSeq) :
    (Table.Delete t key).Immutable = t.Immutable ∧
    (Table.Delete t key).MemTable = eraseKey t.MemTable key ∧
    (∀ v, NodupKeys t.MemTable → lookupKV t.Immutable key = some v →
      Table.Get (Table.Delete t key) key = .ok v) := by
  refine ⟨rfl, rfl, ?_⟩
  intro v hn hv
  unfold Table.Get Table.Delete
  simp only
  rw [lookupKV_erase_self t.MemTable key hn, hv]

/-- C7 witness: delete of a key shadowing an immutable value exposes that value. -/
theorem c7_delete_active_only_witness :
    NodupKeys c7t.MemTable ∧ lookupKV c7t.Immutable [97] = some [50] ∧
    Table.Get (Table.Delete c7t [97]) [97] = .ok [50] :=
  ⟨by decide, by decide,
    (c7_delete_active_only c7t [97]).2.2 [50] (by decide) (by decide)⟩

theorem compact_ok (db : DB) :
    DB.compact db okO =
      ({ wal := { Records := [], fileContent := [] },
         table := { MemTable := [],
                    Immutable := db.table.MemTable,
                    level := if db.table.Immutable.length > 0 then db.table.level + 1
                             else db.table.level,
                    sstFiles := if db.table.Immutable.length > 0
                                then db.table.sstFiles ++
                                  [(db.table.level, sortKVs db.table.Immutable)]
                                else db.table.sstFiles } }, none) := by
  unfold DB.compact WAL.compact Table.writeSSTable okO
  by_cases h : db.table.Immutable.length > 0 <;> simp [h]

theorem append_small (db : DB) (k v : ByteSeq) (a : Int)
    (hl : db.wal.Records.length ≤ LogLimit) (ha : a = ActionPut ∨ a = ActionDelete) :
    DB.append db okO k v a =
      .ret { wal := { Records := db.wal.Records ++ [mkRec k v a],
                      fileContent := db.wal.fileContent ++ (mkRec k v a).Bytes },
             table := if a = ActionPut
                      then { db.table with MemTable := upsert db.table.MemTable k v }
                      else { db.table with MemTable := eraseKey db.table.MemTable k } } none := by
  unfold DB.append WAL.Append DB.sync okO Table.Put Table.Delete
  rw [if_neg (by omega)]
  simp only [List.getLast?_concat]
  rcases ha with h | h <;> subst h <;> simp [mkRec, ActionPut, ActionDelete]

theorem append_big (db : DB) (k v : ByteSeq) (a : Int)
    (hl : db.wal.Records.length > LogLimit) (ha : a = ActionPut ∨ a = ActionDelete) :
    DB.append db okO k v a =
      .ret { wal := { Records := [mkRec k v a],
                      fileContent := (mkRec k v a).Bytes },
             table := { MemTable := if a = ActionPut then [(k, v)] else [],
                        Immutable := db.table.MemTable,
                        level := if db.table.Immutable.length > 0 then db.table.level + 1
                                 else db.table.level,
                        sstFiles := if db.table.Immutable.length > 0
                                    then db.table.sstFiles ++
                                      [(db.table.level, sortKVs db.table.Immutable)]
                                    else db.table.sstFiles } } none := by
  unfold DB.append
  rw [if_pos (by omega), compact_ok db]
  simp only [WAL.Append, DB.sync, okO, Table.Put, Table.Delete, List.nil_append,
    List.getLast?_concat]
  rcases ha with h | h <;> subst h <;> simp [mkRec, ActionPut, ActionDelete, upsert, eraseKey]

theorem compact_no_sstfail (db : DB) (o : Oracle) (ht : o.truncErr = none)
    (hs : o.sstErr = none) :
    DB.compact db o =
      ({ wal := { Records := [], fileContent := [] },
         table := { MemTable := [],
                    Immutable := db.table.MemTable,
                    level := if db.table.Immutable.length > 0 then db.table.level + 1
                             else db.table.level,
                    sstFiles := if db.table.Immutable.length > 0
                                then db.table.sstFiles ++
                                  [(db.table.level, sortKVs db.table.Immutable)]
                                else db.table.sstFiles } }, none) := by
  unfold DB.compact WAL.compact Table.writeSSTable
  rw [ht, hs]
  by_cases h : db.table.Immutable.length > 0 <;> simp [h]

theorem compact_trunc_ignored (db : DB) (e1 : Err) :
    DB.compact db { flushErr := none, truncErr := some e1, sstErr := none } =
      ({ wal := { Records := [], fileContent := db.wal.fileContent },
         table := { MemTable := [],
                    Immutable := db.table.MemTable,
                    level := if db.table.Immutable.length > 0 then db.table.level + 1
                             else db.table.level,
                    sstFiles := if db.table.Immutable.length > 0
                                then db.table.sstFiles ++
                                  [(db.table.level, sortKVs db.table.Immutable)]
                                else db.table.sstFiles } }, none) := by
  unfold DB.compact WAL.compact Table.writeSSTable
  by_cases h : db.table.Immutable.length > 0 <;> simp [h]

theorem compact_sst_fail (db : DB) (o : Oracle) (e : Err) (ht : o.truncErr = none)
    (hs : o.sstErr = some e) (h : db.table.Immutable.length > 0) :
    DB.compact db o = ({ db with wal := { Records := [], fileContent := [] } }, some e) := by
  unfold DB.compact WAL.compact Table.writeSSTable
  rw [ht, hs]
  simp [h]

/-- A 4097-record WAL content, one past `LogLimit`, used by the concrete
threshold-crossing states. -/
def bigRecords : List Record := List.replicate 4097 (mkRec [122] [122] ActionPut)

theorem bigRecords_length : bigRecords.length = 4097 := by
  show (List.replicate 4097 (mkRec [122] [122] ActionPut)).length = 4097
  rw [List.length_replicate]

/-- An engine state whose WAL already exceeds `LogLimit` and whose active
mapping is non-empty (immutable mapping empty). -/
def bigDB : DB :=
  { wal := { Records := bigRecords, fileContent := [] },
    table := { MemTable := [([97], [49])], Immutable := [], level := 0, sstFiles := [] } }

/-- C3 counterexample: on a `Put` whose WAL flush fails but whose WAL already
holds more than `LogLimit` records, the call still returns the WAL's error, yet
both table mappings differ from their values before the call (the triggered
compaction swapped them), contradicting the claim that they are unchanged. -/
theorem c3_counterexample :
    DB.append bigDB { flushErr := some (Err.ioErr 7), truncErr := none, sstErr := none }
        [98] [50] ActionPut =
      .ret { wal := { Records := [mkRec [98] [50] ActionPut], fileContent := [] },
             table := { MemTable := [], Immutable := [([97], [49])],
                        level := 0, sstFiles := [] } }
        (some (Err.ioErr 7)) ∧
    ([] : KVMap) ≠ bigDB.table.MemTable ∧
    ([([97], [49])] : KVMap) ≠ bigDB.table.Immutable := by
  refine ⟨?_, by decide, by decide⟩
  unfold DB.append
  rw [if_pos (by rw [show bigDB.wal.Records = bigRecords from rfl, bigRecords_length]; decide),
    compact_no_sstfail bigDB _ rfl rfl]
  decide

/-- C3 amended: for every `Put` or `Delete` call that does not trigger
compaction (WAL length at most `LogLimit` at entry), if the WAL append step
fails then the call returns the WAL's error, both table mappings are unchanged,
and the failed record remains in the WAL's in-memory record sequence; a call
that does trigger compaction additionally swaps the mappings by that
compaction, but still never applies the failed record. -/
theorem c3_wal_append_failure (db : DB) (o : Oracle) (k v : ByteSeq) (a : Int) (e : Err)
    (hl : db.wal.Records.length ≤ LogLimit) (hf : o.flushErr = some e)
    (ha : a = ActionPut ∨ a = ActionDelete) :
    DB.append db o k v a =
      .ret { db with wal := { db.wal with Records := db.wal.Records ++ [mkRec k v a] } }
        (some e) := by
  unfold DB.append WAL.Append
  rw [if_neg (by omega)]
  simp [hf]

/-- C3 witness: a concrete failing append on a fresh engine returns the I/O
error, leaves both mappings empty, and keeps the record in memory. -/
theorem c3_wal_append_failure_witness :
    freshDB.wal.Records.length ≤ LogLimit ∧
    (({ flushErr := some (Err.ioErr 7), truncErr := none, sstErr := none } : Oracle).flushErr
      = some (Err.ioErr 7)) ∧
    DB.append freshDB { flushErr := some (Err.ioErr 7), truncErr := none, sstErr := none }
        [97] [49] ActionPut =
      .ret { freshDB with wal := { freshDB.wal with
               Records := freshDB.wal.Records ++ [mkRec [97] [49] ActionPut] } }
        (some (Err.ioErr 7)) :=
  ⟨by decide, rfl,
    c3_wal_append_failure freshDB _ [97] [49] ActionPut (Err.ioErr 7) (by decide) rfl
      (Or.inl rfl)⟩

/-- C4: under error-free I/O, `compact` (1) truncates the WAL, clearing the
in-memory record list and the file; (2) if the immutable mapping is non-empty,
writes it, sorted, as the SSTable of the current level and increments the level
counter by one; (3) makes the active mapping the new immutable mapping; and
(4) installs a fresh empty active mapping. -/
theorem c4_compact_steps (db : DB) :
    DB.compact db okO =
      ({ wal := { Records := [], fileContent := [] },
         table := { MemTable := [],
                    Immutable := db.table.MemTable,
                    level := if db.table.Immutable.length > 0 then db.table.level + 1
                             else db.table.level,
                    sstFiles := if db.table.Immutable.length > 0
                                then db.table.sstFiles ++
                                  [(db.table.level, sortKVs db.table.Immutable)]
                                else db.table.sstFiles } }, none) :=
  compact_no_sstfail db okO rfl rfl

/-- C10 amended: for a key absent from both mappings, a `Delete` call that does
not trigger compaction (WAL length at most `LogLimit`) and whose WAL append
succeeds returns success, and both table mappings are unchanged by the call. -/
theorem c10_delete_absent (db : DB) (o : Oracle) (key : ByteSeq)
    (hl : db.wal.Records.length ≤ LogLimit) (hf : o.flushErr = none)
    (hm : lookupKV db.table.MemTable key = none)
    (hi : lookupKV db.table.Immutable key = none) :
    DB.Delete db o key =
      .ret { db with wal :=
               { Records := db.wal.Records ++ [mkRec key [] ActionDelete],
                 fileContent := db.wal.fileContent ++ (mkRec key [] ActionDelete).Bytes } }
        none := by
  unfold DB.Delete DB.append WAL.Append DB.sync Table.Delete
  rw [if_neg (by omega)]
  simp only [hf, List.getLast?_concat]
  simp [mkRec, ActionPut, ActionDelete, eraseKey_absent _ _ hm]

/-- C10 witness: deleting an absent key on a fresh engine succeeds and leaves
both mappings as they were. -/
theorem c10_delete_absent_witness :
    freshDB.wal.Records.length ≤ LogLimit ∧
    lookupKV freshDB.table.MemTable [97] = none ∧
    lookupKV freshDB.table.Immutable [97] = none ∧
    DB.Delete freshDB okO [97] =
      .ret { freshDB with wal :=
               { Records := freshDB.wal.Records ++ [mkRec [97] [] ActionDelete],
                 fileContent := freshDB.wal.fileContent ++ (mkRec [97] [] ActionDelete).Bytes } }
        none :=
  ⟨by decide, by decide, by decide,
    c10_delete_absent freshDB okO [97] (by decide) rfl (by decide) (by decide)⟩

/-- C10 counterexample: deleting a key absent from both mappings, on an engine
whose WAL exceeds `LogLimit`, succeeds — but both mappings change (the
triggered compaction swaps them), contradicting the claim that they are
unchanged by the call. -/
theorem c10_counterexample :
    lookupKV bigDB.table.MemTable [98] = none ∧
    lookupKV bigDB.table.Immutable [98] = none ∧
    DB.Delete bigDB okO [98] =
      .ret { wal := { Records := [mkRec [98] [] ActionDelete],
                      fileContent := (mkRec [98] [] ActionDelete).Bytes },
             table := { MemTable := [], Immutable := [([97], [49])],
                        level := 0, sstFiles := [] } }
        none ∧
    ([] : KVMap) ≠ bigDB.table.MemTable ∧
    ([([97], [49])] : KVMap) ≠ bigDB.table.Immutable := by
  refine ⟨by decide, by decide, ?_, by decide, by decide⟩
  unfold DB.Delete DB.append
  rw [if_pos (by rw [show bigDB.wal.Records = bigRecords from rfl, bigRecords_length]; decide),
    compact_no_sstfail bigDB _ rfl rfl]
  decide

/-- An engine state whose WAL exceeds `LogLimit` and whose immutable mapping is
non-empty, so the triggered compaction attempts an SSTable write. -/
def c8big : DB :=
  { wal := { Records := bigRecords, fileContent := [] },
    table := { MemTable := [([99], [51])], Immutable := [([97], [49])],
               level := 0, sstFiles := [] } }

/-- The state at the moment `log.Fatal` terminates the process in the C8
counterexample: the WAL already truncated, both mappings untouched. -/
def c8mid : DB := { c8big with wal := { Records := [], fileContent := [] } }

/-- C8 counterexample: when the SSTable write of a triggered compaction fails,
the write call does not propagate the error to its caller — the process is
terminated by `log.Fatal` — contradicting the claim that the error is
propagated and the engine remains usable. -/
theorem c8_counterexample :
    DB.append c8big { flushErr := none, truncErr := none, sstErr := some (Err.ioErr 3) }
        [98] [50] ActionPut = .fatal c8mid := by
  unfold DB.append
  rw [if_pos (by rw [show c8big.wal.Records = bigRecords from rfl, bigRecords_length]; decide),
    compact_sst_fail c8big _ (Err.ioErr 3) rfl rfl (by decide)]
  rfl

/-- C8 amended: a WAL truncation failure during compaction is silently ignored
— `WAL.compact` discards the `Seek`/`Truncate` errors and returns `nil`, so
compaction reports success, clears the in-memory record list (the file bytes
are left behind), and transforms the table pair exactly as an error-free
compaction would. An SSTable write failure makes `compact` return the error
with the active and immutable mappings unmodified (though the WAL is already
truncated); the caller of the triggering write does not receive that error —
`DB.append` terminates the process via `log.Fatal`. -/
theorem c8_compaction_failure (db : DB) (e1 e2 : Err) (k v : ByteSeq) (a : Int) :
    (DB.compact db { flushErr := none, truncErr := some e1, sstErr := none }).2 = none ∧
    (DB.compact db { flushErr := none, truncErr := some e1, sstErr := none }).1.wal.Records
      = [] ∧
    (DB.compact db { flushErr := none, truncErr := some e1, sstErr := none }).1.table
      = (DB.compact db okO).1.table ∧
    (db.table.Immutable.length > 0 →
      DB.compact db { flushErr := none, truncErr := none, sstErr := some e2 } =
        ({ db with wal := { Records := [], fileContent := [] } }, some e2)) ∧
    (db.wal.Records.length > LogLimit → db.table.Immutable.length > 0 →
      DB.append db { flushErr := none, truncErr := none, sstErr := some e2 } k v a =
        .fatal { db with wal := { Records := [], fileContent := [] } }) := by
  refine ⟨?_, ?_, ?_, ?_, ?_⟩
  · rw [compact_trunc_ignored db e1]
  · rw [compact_trunc_ignored db e1]
  · rw [compact_trunc_ignored db e1, compact_no_sstfail db okO rfl rfl]
  · intro h
    exact compact_sst_fail db _ e2 rfl rfl h
  · intro hl h
    unfold DB.append
    rw [if_pos (by omega), compact_sst_fail db _ e2 rfl rfl h]

/-- C8 witness: the amended behaviour at a concrete over-threshold state with a
non-empty immutable mapping. -/
theorem c8_compaction_failure_witness :
    (DB.compact c8big { flushErr := none, truncErr := some (Err.ioErr 1), sstErr := none }).2
      = none ∧
    (DB.compact c8big
      { flushErr := none, truncErr := some (Err.ioErr 1), sstErr := none }).1.wal.Records
      = [] ∧
    (DB.compact c8big { flushErr := none, truncErr := some (Err.ioErr 1), sstErr := none }).1.table
      = (DB.compact c8big okO).1.table ∧
    DB.compact c8big { flushErr := none, truncErr := none, sstErr := some (Err.ioErr 2) } =
      ({ c8big with wal := { Records := [], fileContent := [] } }, some (Err.ioErr 2)) ∧
    DB.append c8big { flushErr := none, truncErr := none, sstErr := some (Err.ioErr 2) }
        [98] [50] ActionPut =
      .fatal { c8big with wal := { Records := [], fileContent := [] } } := by
  have h := c8_compaction_failure c8big (Err.ioErr 1) (Err.ioErr 2) [98] [50] ActionPut
  exact ⟨h.1, h.2.1, h.2.2.1, h.2.2.2.1 (by decide),
    h.2.2.2.2 (by rw [show c8big.wal.Records = bigRecords from rfl, bigRecords_length]; decide)
      (by decide)⟩

theorem walAppend_records (w : WAL) (r : Record) (fe : Option Err) :
    (WAL.Append w r fe).1.Records = w.Records ++ [r] := by
  cases fe <;> rfl

theorem compact_records (db : DB) (o : Oracle) :
    (DB.compact db o).1.wal.Records = [] := by
  unfold DB.compact WAL.compact Table.writeSSTable
  cases o.sstErr <;> by_cases h : db.table.Immutable.length > 0 <;> simp [h]

theorem sync_wal (db db3 : DB) (h : DB.sync db = some db3) : db3.wal = db.wal := by
  unfold DB.sync at h
  split at h
  · cases h
  · split at h
    · injection h with h2; rw [← h2]
    · split at h <;> (injection h with h2; rw [← h2])

theorem append_ret_records (db db' : DB) (o : Oracle) (k v : ByteSeq) (a : Int)
    (e : Option Err) (h : DB.append db o k v a = .ret db' e) :
    db'.wal.Records =
      (if db.wal.Records.length > LogLimit then [] else db.wal.Records) ++ [mkRec k v a] := by
  unfold DB.append at h
  have hpre : ∀ db1 : DB,
      (if db.wal.Records.length > LogLimit then DB.compact db o else (db, none)) = (db1, none) →
      db1.wal.Records = (if db.wal.Records.length > LogLimit then [] else db.wal.Records) := by
    intro db1 heq
    by_cases hl : db.wal.Records.length > LogLimit
    · rw [if_pos hl] at heq
      rw [if_pos hl]
      have := compact_records db o
      rw [heq] at this
      exact this
    · rw [if_neg hl] at heq
      rw [if_neg hl]
      injection heq with h1 _
      rw [← h1]
  split at h
  case _ => exact absurd h (by simp)
  case _ db1 heq =>
    split at h
    case _ w2 e1 heq2 =>
      injection h with h1 h2
      rw [← h1]
      have hw2 : w2.Records = db1.wal.Records ++ [mkRec k v a] := by
        have := walAppend_records db1.wal (mkRec k v a) o.flushErr
        rw [heq2] at this
        exact this
      show w2.Records = _
      rw [hw2, hpre db1 heq]
    case _ w2 heq2 =>
      split at h
      case _ => exact absurd h (by simp)
      case _ db3 heq3 =>
        injection h with h1 h2
        rw [← h1]
        have hw : db3.wal = w2 := sync_wal _ _ heq3
        have hw2 : w2.Records = db1.wal.Records ++ [mkRec k v a] := by
          have := walAppend_records db1.wal (mkRec k v a) o.flushErr
          rw [heq2] at this
          exact this
        rw [hw, hw2, hpre db1 heq]

theorem reached_len_le (db : DB) (h : Reached db) :
    db.wal.Records.length ≤ LogLimit + 1 := by
  induction h with
  | base => decide
  | step hre ha happ ih =>
    rename_i db0 db0' o k v a e
    have hr := append_ret_records db0 db0' o k v a e happ
    have hlen : db0'.wal.Records.length =
        (if db0.wal.Records.length > LogLimit then [] else db0.wal.Records).length + 1 := by
      rw [hr]; simp
    by_cases hl : db0.wal.Records.length > LogLimit <;> simp [hl] at hlen <;> omega

/-- C9: starting from an engine opened on an empty log file, after every
completed (returning) `Put` or `Delete` call, the WAL's in-memory record count
is at least `1` and at most `LogLimit + 1`: the compaction check runs before
the append and empties the list whenever it held more than `LogLimit` records. -/
theorem c9_wal_length_bounds (db db' : DB) (o : Oracle) (k v : ByteSeq) (a : Int)
    (e : Option Err) (hre : Reached db) (ha : a = ActionPut ∨ a = ActionDelete)
    (happ : DB.append db o k v a = .ret db' e) :
    1 ≤ db'.wal.Records.length ∧ db'.wal.Records.length ≤ LogLimit + 1 := by
  have hr := append_ret_records db db' o k v a e happ
  have hb := reached_len_le db hre
  have hlen : db'.wal.Records.length =
      (if db.wal.Records.length > LogLimit then [] else db.wal.Records).length + 1 := by
    rw [hr]; simp
  by_cases hl : db.wal.Records.length > LogLimit <;> simp [hl] at hlen <;> omega

/-- The state after one successful `Put` on a fresh engine, used to witness C9. -/
def c9post : DB :=
  { wal := { Records := [mkRec [97] [49] ActionPut],
             fileContent := (mkRec [97] [49] ActionPut).Bytes },
    table := { MemTable := [([97], [49])], Immutable := [], level := 0, sstFiles := [] } }

/-- C9 witness: the bounds hold after one concrete `Put` on the fresh engine. -/
theorem c9_wal_length_bounds_witness :
    1 ≤ c9post.wal.Records.length ∧ c9post.wal.Records.length ≤ LogLimit + 1 :=
  c9_wal_length_bounds freshDB c9post okO [97] [49] ActionPut none Reached.base
    (Or.inl rfl) (by decide)

theorem stepPut_small (db : DB) (hl : db.wal.Records.length ≤ LogLimit) :
    stepPut db =
      { wal := { Records := db.wal.Records ++ [mkRec kC5 vC5 ActionPut],
                 fileContent := db.wal.fileContent ++ (mkRec kC5 vC5 ActionPut).Bytes },
        table := { db.table with MemTable := upsert db.table.MemTable kC5 vC5 } } := by
  unfold stepPut
  rw [append_small db kC5 vC5 ActionPut hl (Or.inl rfl)]
  rfl

theorem stepPut_big (db : DB) (hl : db.wal.Records.length > LogLimit) :
    stepPut db =
      { wal := { Records := [mkRec kC5 vC5 ActionPut],
                 fileContent := (mkRec kC5 vC5 ActionPut).Bytes },
        table := { MemTable := [(kC5, vC5)],
                   Immutable := db.table.MemTable,
                   level := if db.table.Immutable.length > 0 then db.table.level + 1
                            else db.table.level,
                   sstFiles := if db.table.Immutable.length > 0
                               then db.table.sstFiles ++
                                 [(db.table.level, sortKVs db.table.Immutable)]
                               else db.table.sstFiles } } := by
  unfold stepPut
  rw [append_big db kC5 vC5 ActionPut hl (Or.inl rfl)]
  rfl

theorem iterPut_add (a b : Nat) : ∀ db : DB, iterPut (a + b) db = iterPut b (iterPut a db) := by
  induction a with
  | zero => intro db; rw [Nat.zero_add]; rfl
  | succ n ih =>
    intro db
    have h1 : n + 1 + b = (n + b) + 1 := by omega
    rw [h1]
    show iterPut (n + b) (stepPut db) = iterPut b (iterPut (n + 1) db)
    rw [ih (stepPut db)]
    rfl

theorem iterPut_flat (m : Nat) : ∀ db : DB, db.wal.Records.length + m ≤ LogLimit + 1 →
    (iterPut m db).wal.Records.length = db.wal.Records.length + m ∧
    (iterPut m db).table.Immutable = db.table.Immutable ∧
    (iterPut m db).table.level = db.table.level ∧
    (iterPut m db).table.sstFiles = db.table.sstFiles ∧
    (iterPut m db).table.MemTable =
      (if m = 0 then db.table.MemTable else upsert db.table.MemTable kC5 vC5) := by
  induction m with
  | zero => intro db h; exact ⟨by simp [iterPut], rfl, rfl, rfl, by simp [iterPut]⟩
  | succ n ih =>
    intro db h
    have hl : db.wal.Records.length ≤ LogLimit := by omega
    have hs := stepPut_small db hl
    have hlen2 : (stepPut db).wal.Records.length = db.wal.Records.length + 1 := by
      rw [hs]; simp
    obtain ⟨h1, h2, h3, h4, h5⟩ := ih (stepPut db) (by rw [hlen2]; omega)
    refine ⟨?_, ?_, ?_, ?_, ?_⟩
    · show (iterPut n (stepPut db)).wal.Records.length = _
      rw [h1, hlen2]; omega
    · show (iterPut n (stepPut db)).table.Immutable = _
      rw [h2, hs]
    · show (iterPut n (stepPut db)).table.level = _
      rw [h3, hs]
    · show (iterPut n (stepPut db)).table.sstFiles = _
      rw [h4, hs]
    · show (iterPut n (stepPut db)).table.MemTable = _
      rw [h5, hs]
      by_cases hn : n = 0
      · simp [hn]
      · simp [hn, upsert_idem]

/-- The engine state after the first threshold crossing of the C5 scenario:
4097 identical `Put`s, then the 4098th `Put` which triggers the first
compaction (empty immutable mapping, so no SSTable write) and is appended. -/
def c5mid : DB :=
  { wal := { Records := [mkRec kC5 vC5 ActionPut],
             fileContent := (mkRec kC5 vC5 ActionPut).Bytes },
    table := { MemTable := [(kC5, vC5)], Immutable := [(kC5, vC5)],
               level := 0, sstFiles := [] } }

theorem iterPut_4098 : iterPut 4098 freshDB = c5mid := by
  obtain ⟨h1, h2, h3, h4, h5⟩ := iterPut_flat 4097 freshDB (by decide)
  have e1 : iterPut 4098 freshDB = stepPut (iterPut 4097 freshDB) :=
    iterPut_add 4097 1 freshDB
  rw [e1, stepPut_big _ (by rw [h1]; decide), h2, h3, h4, h5]
  simp [c5mid, freshDB, upsert]

theorem iterPut_8195 :
    iterPut 8195 freshDB =
      { wal := { Records := [mkRec kC5 vC5 ActionPut],
                 fileContent := (mkRec kC5 vC5 ActionPut).Bytes },
        table := { MemTable := [(kC5, vC5)], Immutable := [(kC5, vC5)],
                   level := 1, sstFiles := [(0, [(kC5, vC5)])] } } := by
  have e0 : iterPut 8195 freshDB = iterPut 4097 (iterPut 4098 freshDB) :=
    iterPut_add 4098 4097 freshDB
  rw [e0, iterPut_4098]
  obtain ⟨h1, h2, h3, h4, h5⟩ := iterPut_flat 4096 c5mid (by decide)
  have e1 : iterPut 4097 c5mid = stepPut (iterPut 4096 c5mid) :=
    iterPut_add 4096 1 c5mid
  rw [e1, stepPut_big _ (by rw [h1]; decide), h2, h3, h4, h5]
  simp [c5mid, upsert, sortKVs, insertKV]

/-- C5 counterexample: from a fresh engine, 4097 `Put`s (taking the WAL past
`LogLimit = 4096`) followed by one more `Put` leave the WAL holding exactly
that one just-appended record — but no SSTable file is produced: the immutable
mapping was empty at this first compaction, so no file with generation number
`0` exists, contradicting the claim. -/
theorem c5_counterexample :
    (iterPut 4098 freshDB).wal.Records = [mkRec kC5 vC5 ActionPut] ∧
    (iterPut 4098 freshDB).table.sstFiles = [] := by
  rw [iterPut_4098]
  exact ⟨rfl, rfl⟩

/-- C5 amended: the put after the first threshold crossing leaves the WAL with
exactly that one record but produces no SSTable file (the immutable mapping is
empty at the first compaction); the SSTable file with generation number `0`
first appears at the second threshold crossing, after which the level counter
is `1` and the WAL again holds exactly the one just-appended record. -/
theorem c5_threshold_scenario :
    (iterPut 4098 freshDB).wal.Records = [mkRec kC5 vC5 ActionPut] ∧
    (iterPut 4098 freshDB).table.sstFiles = [] ∧
    (iterPut 8195 freshDB).wal.Records = [mkRec kC5 vC5 ActionPut] ∧
    (iterPut 8195 freshDB).table.sstFiles = [(0, [(kC5, vC5)])] ∧
    (iterPut 8195 freshDB).table.level = 1 := by
  rw [iterPut_4098, iterPut_8195]
  exact ⟨rfl, rfl, rfl, rfl, rfl⟩
